import Mathlib

/-!
Shallow embedding of the rust-codecov-cache repository.

The repository has two components:

* src/cache.rs: a directory-based byte-blob cache (struct Client with
  dirpath_by_keys, filepath_by_keys, ensure_dir, save, load, remove, has),
  storing an entry for key sequence [k1, ..., kn] at
  cache_dir/k1/.../kn/<filename>.
* src/lib.rs: a wrapper Client around the external codecov API client;
  its method get_branch_detail_with_commit_id implements a cache-aside
  fetch keyed by [service, username, name, branch_name, commit_id].

The filesystem is modelled explicitly as a value of type FS: an association
list of files (path to bytes) together with the list of directories created
so far.  Paths are lists of components, and PathBuf::push is modelled by
appending the slash-separated components of the pushed segment, mirroring
the component normalization Rust paths perform (empty and "." components
disappear).  All functions are computable so that concrete runs evaluate.
-/

namespace RustCodecovCache

/-- Byte payloads, one natural number per byte. -/
abbrev Bytes := List Nat

/-- A filesystem path, as its list of normalized components. -/
abbrev Path := List String

/-- Splits a character list at every slash character. -/
def splitOnSlash : List Char → List (List Char)
  | [] => [[]]
  | c :: cs =>
    let rest := splitOnSlash cs
    if c = '/' then [] :: rest
    else
      match rest with
      | [] => [[c]]
      | r :: rs => (c :: r) :: rs

/-- Path components of one pushed string segment, as Rust path
component normalization sees it: split at slashes, drop empty and
current-directory components. -/
def components (s : String) : List String :=
  ((splitOnSlash s.data).map (fun l => String.mk l)).filter
    (fun c => c != "" && c != ".")

/-- Embedding of PathBuf::push for a relative segment: append the
segment's components. -/
def pushPath (p : Path) (s : String) : Path :=
  p ++ components s

/-- Kind of an I/O error, as far as the code distinguishes them:
std::io::ErrorKind::NotFound versus everything else. -/
inductive IOErrorKind where
  | notFound
  | other
deriving DecidableEq, Repr

/-- The filesystem state: the stored files (path to content) and the
directories created so far.  A path is a directory when it lies on the
way to a created directory or to a file. -/
structure FS where
  files : List (Path × Bytes)
  dirs : List Path
deriving DecidableEq, Repr

/-- Content of the file at path p, when one exists. -/
def FS.readFile (fs : FS) (p : Path) : Option Bytes :=
  (fs.files.find? (fun e => e.1 == p)).map (fun e => e.2)

/-- Whether path p is a directory: it is a prefix of a created directory
or a proper prefix of a file path. -/
def FS.isDir (fs : FS) (p : Path) : Bool :=
  fs.dirs.any (fun d => p.isPrefixOf d) ||
    fs.files.any (fun e => e.1 != p && p.isPrefixOf e.1)

/-- Embedding of std::fs::create_dir_all: fails when an existing file
blocks a component of the path, otherwise records the directory. -/
def FS.createDirAll (fs : FS) (p : Path) : Except IOErrorKind FS :=
  if fs.files.any (fun e => e.1.isPrefixOf p) then
    .error .other
  else
    .ok { fs with dirs := p :: fs.dirs }

/-- Embedding of std::fs::File::create followed by a full write: fails
when the path is a directory or its parent directory is missing,
otherwise truncates and writes. -/
def FS.createFile (fs : FS) (p : Path) (data : Bytes) : Except IOErrorKind FS :=
  if fs.isDir p then
    .error .other
  else if !(fs.isDir p.dropLast) then
    .error .notFound
  else
    .ok { fs with files := (p, data) :: fs.files.filter (fun e => e.1 != p) }

/-- Embedding of std::fs::read. -/
def FS.read (fs : FS) (p : Path) : Except IOErrorKind Bytes :=
  match fs.readFile p with
  | some b => .ok b
  | none => if fs.isDir p then .error .other else .error .notFound

/-- Embedding of std::fs::remove_file. -/
def FS.removeFile (fs : FS) (p : Path) : Except IOErrorKind FS :=
  match fs.readFile p with
  | some _ => .ok { fs with files := fs.files.filter (fun e => e.1 != p) }
  | none => if fs.isDir p then .error .other else .error .notFound

/-- Embedding of std::path::Path::exists: a file or a directory lives
at the path. -/
def FS.existsPath (fs : FS) (p : Path) : Bool :=
  (fs.readFile p).isSome || fs.isDir p

namespace Cache

/-- Error type of src/cache/errors.rs. -/
inductive Error where
  | IOErr (kind : IOErrorKind)
  | DeserializeError (message : String)
deriving DecidableEq, Repr

/-- Converts a raw I/O result into a cache result, as the From impl of
cache::errors::Error does for std::io::Error. -/
def ioResult {α : Type} : Except IOErrorKind α → Except Error α
  | .ok a => .ok a
  | .error k => .error (.IOErr k)

/-- The cache client of src/cache.rs: a root directory and the fixed
leaf filename. -/
structure Client where
  cache_dir : Path
  filename : String
deriving DecidableEq, Repr

/-- Client::dirpath_by_keys: push every key onto the cache root. -/
def Client.dirpath_by_keys (c : Client) (keys : List String) : Path :=
  keys.foldl pushPath c.cache_dir

/-- Client::filepath_by_keys: the directory path plus the leaf
filename. -/
def Client.filepath_by_keys (c : Client) (keys : List String) : Path :=
  pushPath (c.dirpath_by_keys keys) c.filename

/-- Client::ensure_dir: create_dir_all on the directory path. -/
def Client.ensure_dir (c : Client) (fs : FS) (keys : List String) :
    Except Error FS :=
  ioResult (fs.createDirAll (c.dirpath_by_keys keys))

/-- Client::save: ensure the directory, then create and write the leaf
file. -/
def Client.save (c : Client) (fs : FS) (keys : List String) (data : Bytes) :
    Except Error FS :=
  let path := c.filepath_by_keys keys
  match c.ensure_dir fs keys with
  | .error e => .error e
  | .ok fs1 => ioResult (fs1.createFile path data)

/-- Client::load: read the whole leaf file. -/
def Client.load (c : Client) (fs : FS) (keys : List String) :
    Except Error Bytes :=
  ioResult (fs.read (c.filepath_by_keys keys))

/-- Client::remove: remove the leaf file. -/
def Client.remove (c : Client) (fs : FS) (keys : List String) :
    Except Error FS :=
  ioResult (fs.removeFile (c.filepath_by_keys keys))

/-- Client::has: existence check on the leaf file path. -/
def Client.has (c : Client) (fs : FS) (keys : List String) : Bool :=
  fs.existsPath (c.filepath_by_keys keys)

end Cache

/-- An author coordinate of the codecov API: service, username and
repository name, the first three key segments. -/
structure Author where
  service : String
  username : String
  name : String
deriving DecidableEq, Repr

/-- Head commit of a branch; only the commit id matters to the cache
key. -/
structure HeadCommit where
  commitid : String
deriving DecidableEq, Repr

/-- Branch detail payload of the codecov crate (external); only the
fields the caching logic reads are modelled, the rest of the payload is
carried opaquely in rest. -/
structure BranchDetail where
  name : String
  head_commit : HeadCommit
  rest : String
deriving DecidableEq, Repr

/-- Response of the branch-detail endpoint: a tagged variant with a
Success case carrying the detail and a domain-level not-found case
(external codecov crate, modelled per its use in src/lib.rs). -/
inductive BranchDetailAPIResponse where
  | Success (detail : BranchDetail)
  | NotFound
deriving DecidableEq, Repr

/-- Error type of the external codecov crate, as far as the From impl in
src/errors.rs distinguishes its variants: EnvError versus the rest. -/
inductive CodecovError where
  | EnvError (message : String)
  | ApiError (message : String)
deriving DecidableEq, Repr

/-- Error type of src/errors.rs. -/
inductive Error where
  | EnvError (message : String)
  | CodecovClientError (err : CodecovError)
deriving DecidableEq, Repr

/-- From impl for codecov errors in src/errors.rs: EnvError is unwrapped,
everything else is wrapped as CodecovClientError. -/
def Error.fromCodecov : CodecovError → Error
  | .EnvError e => .EnvError e
  | e => .CodecovClientError e

/-- The fall-through part of Client::get_branch_detail_with_commit_id in
src/lib.rs, reached when the cache lookup misses or its bytes do not
decode: perform the remote fetch (its outcome is the parameter fetch,
converted through the From impl on failure), and on a Success response
serialize the detail (the parameter encode stands for
serde_json::to_vec) and save it under the key rebuilt with the commit id
of the response's head commit; a save failure is printed and discarded.
Returns the response paired with the resulting filesystem. -/
def fetch_and_save (cache_client : Cache.Client) (fs : FS)
    (encode : BranchDetail → Bytes)
    (fetch : Except CodecovError BranchDetailAPIResponse)
    (author : Author) (branch_name : String) :
    Except Error BranchDetailAPIResponse × FS :=
  match fetch with
  | .error e => (.error (Error.fromCodecov e), fs)
  | .ok retrieved =>
    match retrieved with
    | .Success detail =>
      let cache_key := [author.service, author.username, author.name,
        branch_name, detail.head_commit.commitid]
      match cache_client.save fs cache_key (encode detail) with
      | .ok fs1 => (.ok retrieved, fs1)
      | .error _ => (.ok retrieved, fs)
    | .NotFound => (.ok retrieved, fs)

/-- Client::get_branch_detail_with_commit_id of src/lib.rs.  The lookup
key is [service, username, name, branch_name, commit_id].  When the
cache holds bytes at that key and they decode (the parameter decode
collapses the two serde_json steps, from_slice then from_value), the
decoded response is returned and the filesystem is untouched; otherwise
the call falls through to fetch_and_save. -/
def get_branch_detail_with_commit_id (cache_client : Cache.Client) (fs : FS)
    (encode : BranchDetail → Bytes)
    (decode : Bytes → Option BranchDetailAPIResponse)
    (fetch : Except CodecovError BranchDetailAPIResponse)
    (author : Author) (branch_name : String) (commit_id : String) :
    Except Error BranchDetailAPIResponse × FS :=
  let cache_key := [author.service, author.username, author.name,
    branch_name, commit_id]
  match cache_client.load fs cache_key with
  | .ok data =>
    match decode data with
    | some branch_detail => (.ok branch_detail, fs)
    | none => fetch_and_save cache_client fs encode fetch author branch_name
  | .error _ => fetch_and_save cache_client fs encode fetch author branch_name

end RustCodecovCache

deriving instance DecidableEq for Except


namespace RustCodecovCache

/-- Components contributed by a whole key sequence, in order. -/
def componentsOfKeys : List String → List String
  | [] => []
  | k :: ks => components k ++ componentsOfKeys ks

theorem foldl_pushPath (keys : List String) (acc : Path) :
    keys.foldl pushPath acc = acc ++ componentsOfKeys keys := by
  induction keys generalizing acc with
  | nil => simp [componentsOfKeys]
  | cons k ks ih =>
    simp [componentsOfKeys, pushPath, ih, List.append_assoc]

theorem componentsOfKeys_append (ks1 ks2 : List String) :
    componentsOfKeys (ks1 ++ ks2) =
      componentsOfKeys ks1 ++ componentsOfKeys ks2 := by
  induction ks1 with
  | nil => simp [componentsOfKeys]
  | cons k ks ih => simp [componentsOfKeys, ih]

theorem componentsOfKeys_of_plain (keys : List String)
    (h : ∀ k ∈ keys, components k = [k]) : componentsOfKeys keys = keys := by
  induction keys with
  | nil => rfl
  | cons k ks ih =>
    rw [componentsOfKeys, h k (by simp), ih (fun x hx => h x (by simp [hx]))]
    rfl

theorem Cache.Client.dirpath_eq (c : Cache.Client) (keys : List String) :
    c.dirpath_by_keys keys = c.cache_dir ++ componentsOfKeys keys :=
  foldl_pushPath keys c.cache_dir

theorem Cache.Client.filepath_eq (c : Cache.Client) (keys : List String) :
    c.filepath_by_keys keys =
      c.cache_dir ++ componentsOfKeys keys ++ components c.filename := by
  rw [Cache.Client.filepath_by_keys, pushPath, Cache.Client.dirpath_eq]

theorem Cache.Client.dirpath_prefix_filepath (c : Cache.Client)
    (keys : List String) : c.dirpath_by_keys keys <+: c.filepath_by_keys keys :=
  ⟨components c.filename, rfl⟩

theorem prefix_append_cons_eq {l : Path} {a b : String} {t1 t2 : Path}
    (h : (l ++ a :: t1) <+: (l ++ b :: t2)) : a = b := by
  induction l with
  | nil =>
    simp only [List.nil_append] at h
    exact (List.cons_prefix_cons.mp h).1
  | cons x l ih =>
    apply ih
    rw [List.cons_append, List.cons_append, List.cons_prefix_cons] at h
    exact h.2

theorem not_prefix_append_cons {l : Path} {a b : String} {t1 t2 : Path}
    (hab : a ≠ b) : ¬ ((l ++ a :: t1) <+: (l ++ b :: t2)) :=
  fun h => hab (prefix_append_cons_eq h)

theorem find?_filter_ne (l : List (Path × Bytes)) (p q : Path) (hpq : p ≠ q) :
    (l.filter (fun e => e.1 != q)).find? (fun e => e.1 == p) =
      l.find? (fun e => e.1 == p) := by
  induction l with
  | nil => rfl
  | cons a l ih =>
    by_cases h1 : a.1 = p
    · have hq : (a.1 != q) = true := by simp [h1, hpq]
      rw [List.filter_cons, if_pos hq, List.find?_cons_of_pos _ (by simp [h1]),
        List.find?_cons_of_pos _ (by simp [h1])]
    · have hp : (a.1 == p) = false := by simp [h1]
      cases h2 : (a.1 != q) with
      | true => simp [List.filter_cons, h2, List.find?_cons, hp, ih]
      | false => simp [List.filter_cons, h2, List.find?_cons, hp, ih]

theorem find?_filter_self (l : List (Path × Bytes)) (p : Path) :
    (l.filter (fun e => e.1 != p)).find? (fun e => e.1 == p) = none := by
  rw [List.find?_eq_none]
  intro e he
  have h2 := (List.mem_filter.mp he).2
  simp only [bne_iff_ne, ne_eq] at h2
  simp [h2]

end RustCodecovCache

namespace RustCodecovCache

theorem Cache.Client.save_ok_shape {c : Cache.Client} {fs : FS}
    {keys : List String} {data : Bytes} {fs1 : FS}
    (h : c.save fs keys data = .ok fs1) :
    fs1.files = (c.filepath_by_keys keys, data) ::
        fs.files.filter (fun e => e.1 != c.filepath_by_keys keys)
    ∧ fs1.dirs = c.dirpath_by_keys keys :: fs.dirs
    ∧ FS.isDir { files := fs.files, dirs := c.dirpath_by_keys keys :: fs.dirs }
        (c.filepath_by_keys keys) = false := by
  rw [Cache.Client.save, Cache.Client.ensure_dir, FS.createDirAll] at h
  cases hany : (fs.files.any fun e => List.isPrefixOf e.1 (c.dirpath_by_keys keys)) with
  | true => rw [if_pos hany] at h; simp [Cache.ioResult] at h
  | false =>
    rw [if_neg (by simp [hany])] at h
    simp only [Cache.ioResult] at h
    rw [FS.createFile] at h
    cases hdir : FS.isDir { files := fs.files, dirs := c.dirpath_by_keys keys :: fs.dirs }
        (c.filepath_by_keys keys) with
    | true => rw [if_pos hdir] at h; simp [Cache.ioResult] at h
    | false =>
      rw [if_neg (by simp [hdir])] at h
      cases hpar : FS.isDir { files := fs.files, dirs := c.dirpath_by_keys keys :: fs.dirs }
          ((c.filepath_by_keys keys).dropLast) with
      | false => rw [if_pos (by simp [hpar])] at h; simp [Cache.ioResult] at h
      | true =>
        rw [if_neg (by simp [hpar])] at h
        simp only [Cache.ioResult] at h
        cases h
        exact ⟨rfl, rfl, rfl⟩

end RustCodecovCache

namespace RustCodecovCache

theorem isPrefixOf_eq_false {p q : Path} (h : ¬ (p <+: q)) :
    p.isPrefixOf q = false := by
  cases hb : p.isPrefixOf q with
  | false => rfl
  | true => exact absurd (List.isPrefixOf_iff_prefix.mp hb) h

theorem readFile_save_same {c : Cache.Client} {fs : FS} {keys : List String}
    {data : Bytes} {fs1 : FS} (h : c.save fs keys data = .ok fs1) :
    fs1.readFile (c.filepath_by_keys keys) = some data := by
  obtain ⟨hfl, _, _⟩ := Cache.Client.save_ok_shape h
  rw [FS.readFile, hfl, List.find?_cons_of_pos _ (by simp)]
  rfl

theorem readFile_save_other {c : Cache.Client} {fs : FS} {keys : List String}
    {data : Bytes} {fs1 : FS} (h : c.save fs keys data = .ok fs1) {p : Path}
    (hne : p ≠ c.filepath_by_keys keys) :
    fs1.readFile p = fs.readFile p := by
  obtain ⟨hfl, _, _⟩ := Cache.Client.save_ok_shape h
  rw [FS.readFile, FS.readFile, hfl,
    List.find?_cons_of_neg _ (by simp only [beq_iff_eq]; exact fun he => hne he.symm),
    find?_filter_ne _ _ _ hne]

theorem isDir_save {c : Cache.Client} {fs : FS} {keys : List String}
    {data : Bytes} {fs1 : FS} (h : c.save fs keys data = .ok fs1) {p : Path}
    (hnp : ¬ (p <+: c.filepath_by_keys keys)) :
    fs1.isDir p = fs.isDir p := by
  obtain ⟨hfl, hdr, _⟩ := Cache.Client.save_ok_shape h
  have hnd : ¬ (p <+: c.dirpath_by_keys keys) :=
    fun hp => hnp (hp.trans (Cache.Client.dirpath_prefix_filepath c keys))
  rw [FS.isDir, FS.isDir, hfl, hdr, List.any_cons, List.any_cons,
    isPrefixOf_eq_false hnd, List.any_filter]
  have hpf : p.isPrefixOf (c.filepath_by_keys keys) = false := isPrefixOf_eq_false hnp
  have heq : (fun (e : Path × Bytes) =>
        (e.1 != c.filepath_by_keys keys) && ((e.1 != p) && p.isPrefixOf e.1)) =
      fun e => (e.1 != p) && p.isPrefixOf e.1 := by
    funext e
    by_cases he : e.1 = c.filepath_by_keys keys
    · simp [he, hpf]
    · simp [he]
  rw [show ((c.filepath_by_keys keys, data).1 != p &&
      p.isPrefixOf (c.filepath_by_keys keys, data).1) = false by simp [hpf], heq]
  simp

theorem load_save_other {c : Cache.Client} {fs : FS} {keys : List String}
    {data : Bytes} {fs1 : FS} (h : c.save fs keys data = .ok fs1)
    {keys2 : List String}
    (hnp : ¬ (c.filepath_by_keys keys2 <+: c.filepath_by_keys keys)) :
    c.load fs1 keys2 = c.load fs keys2 := by
  have hne : c.filepath_by_keys keys2 ≠ c.filepath_by_keys keys :=
    fun he => hnp (he ▸ List.prefix_refl _)
  rw [Cache.Client.load, Cache.Client.load, FS.read, FS.read,
    readFile_save_other h hne, isDir_save h hnp]

theorem load_error_of_readFile_none {c : Cache.Client} {fs : FS}
    {keys : List String} (h : fs.readFile (c.filepath_by_keys keys) = none) :
    ∃ k, c.load fs keys = .error (.IOErr k) := by
  rw [Cache.Client.load, FS.read, h]
  cases fs.isDir (c.filepath_by_keys keys) <;> simp [Cache.ioResult]

end RustCodecovCache

namespace RustCodecovCache

theorem load_save_same {c : Cache.Client} {fs : FS} {keys : List String}
    {data : Bytes} {fs1 : FS} (h : c.save fs keys data = .ok fs1) :
    c.load fs1 keys = .ok data := by
  rw [Cache.Client.load, FS.read, readFile_save_same h]
  rfl

theorem filepath_ne_of_last_ne (c : Cache.Client) (pre : List String)
    {a b : String} (ha : components a = [a]) (hb : components b = [b])
    (hab : a ≠ b) :
    c.filepath_by_keys (pre ++ [a]) ≠ c.filepath_by_keys (pre ++ [b]) := by
  have hA : componentsOfKeys [a] = [a] := by
    rw [componentsOfKeys, componentsOfKeys, ha, List.append_nil]
  have hB : componentsOfKeys [b] = [b] := by
    rw [componentsOfKeys, componentsOfKeys, hb, List.append_nil]
  rw [Cache.Client.filepath_eq, Cache.Client.filepath_eq,
    componentsOfKeys_append, componentsOfKeys_append, hA, hB]
  intro he
  have h3 := List.append_cancel_left (List.append_cancel_right he)
  have h4 := List.append_cancel_left h3
  exact absurd (List.cons.inj h4).1 hab

/-- C2: for every key sequence and byte payload, a successful save
followed by a load of the same key returns exactly the saved bytes. -/
theorem save_load_roundtrip (c : Cache.Client) (fs : FS) (keys : List String)
    (data : Bytes) (fs1 : FS) (h : c.save fs keys data = .ok fs1) :
    c.load fs1 keys = .ok data :=
  load_save_same h

theorem save_load_roundtrip_witness :
    Cache.Client.load ⟨["root"], "data.json"⟩
      ⟨[(["root", "a", "b", "data.json"], [1, 2])], [["root", "a", "b"]]⟩
      ["a", "b"] = .ok [1, 2] :=
  save_load_roundtrip ⟨["root"], "data.json"⟩ ⟨[], []⟩ ["a", "b"] [1, 2]
    ⟨[(["root", "a", "b", "data.json"], [1, 2])], [["root", "a", "b"]]⟩
    (by decide)

end RustCodecovCache

namespace RustCodecovCache

/-- C7: after a successful save of key sequence K, has K is true; the
subsequent remove of K succeeds, after which has K is false and a
further load of K fails with the not-found error kind. -/
theorem save_has_remove_load_lifecycle (c : Cache.Client) (fs : FS)
    (keys : List String) (data : Bytes) (fs1 : FS)
    (h : c.save fs keys data = .ok fs1) :
    c.has fs1 keys = true
    ∧ ∃ fs2, c.remove fs1 keys = .ok fs2
        ∧ c.has fs2 keys = false
        ∧ c.load fs2 keys = .error (.IOErr .notFound) := by
  obtain ⟨hfl, hdr, hnd⟩ := Cache.Client.save_ok_shape h
  have hrf := readFile_save_same h
  rw [FS.isDir, Bool.or_eq_false_iff] at hnd
  obtain ⟨hnd1, hnd2⟩ := hnd
  have hr2 : FS.readFile
      { files := fs1.files.filter (fun e => e.1 != c.filepath_by_keys keys),
        dirs := fs1.dirs } (c.filepath_by_keys keys) = none := by
    rw [FS.readFile, find?_filter_self]
    rfl
  have hd2 : FS.isDir
      { files := fs1.files.filter (fun e => e.1 != c.filepath_by_keys keys),
        dirs := fs1.dirs } (c.filepath_by_keys keys) = false := by
    rw [FS.isDir, Bool.or_eq_false_iff]
    refine ⟨by rw [hdr]; exact hnd1, ?_⟩
    rw [hfl, List.filter_cons, if_neg (by simp), List.any_filter,
      List.any_filter]
    have heq : (fun (e : Path × Bytes) =>
          (e.1 != c.filepath_by_keys keys) && ((e.1 != c.filepath_by_keys keys)
            && ((e.1 != c.filepath_by_keys keys)
              && (c.filepath_by_keys keys).isPrefixOf e.1))) =
        fun e => (e.1 != c.filepath_by_keys keys)
          && (c.filepath_by_keys keys).isPrefixOf e.1 := by
      funext e
      cases he : (e.1 != c.filepath_by_keys keys) <;> simp [he]
    rw [heq]
    exact hnd2
  refine ⟨by simp [Cache.Client.has, FS.existsPath, hrf],
    { files := fs1.files.filter (fun e => e.1 != c.filepath_by_keys keys),
      dirs := fs1.dirs }, ?_, ?_, ?_⟩
  · rw [Cache.Client.remove, FS.removeFile, hrf]
    rfl
  · simp [Cache.Client.has, FS.existsPath, hr2, hd2]
  · rw [Cache.Client.load, FS.read, hr2, hd2]
    rfl

theorem save_has_remove_load_lifecycle_witness :
    Cache.Client.has ⟨["root"], "data.json"⟩
      ⟨[(["root", "a", "b", "data.json"], [1, 2])], [["root", "a", "b"]]⟩
      ["a", "b"] = true
    ∧ ∃ fs2, Cache.Client.remove ⟨["root"], "data.json"⟩
        ⟨[(["root", "a", "b", "data.json"], [1, 2])], [["root", "a", "b"]]⟩
        ["a", "b"] = .ok fs2
      ∧ Cache.Client.has ⟨["root"], "data.json"⟩ fs2 ["a", "b"] = false
      ∧ Cache.Client.load ⟨["root"], "data.json"⟩ fs2 ["a", "b"]
          = .error (.IOErr .notFound) :=
  save_has_remove_load_lifecycle ⟨["root"], "data.json"⟩ ⟨[], []⟩ ["a", "b"]
    [1, 2] ⟨[(["root", "a", "b", "data.json"], [1, 2])], [["root", "a", "b"]]⟩
    (by decide)

end RustCodecovCache

namespace RustCodecovCache

/-- C6: for a key sequence of filesystem-safe segments, every cache
operation addresses exactly the path obtained by joining the cache root
with the key segments in order followed by the configured leaf filename:
save, load, remove and has all act on cache_dir ++ keys ++ [filename],
and save creates the directories of cache_dir ++ keys. -/
theorem cache_ops_address_joined_path (c : Cache.Client) (keys : List String)
    (hk : ∀ k ∈ keys, components k = [k])
    (hf : components c.filename = [c.filename]) :
    c.dirpath_by_keys keys = c.cache_dir ++ keys
    ∧ c.filepath_by_keys keys = c.cache_dir ++ keys ++ [c.filename]
    ∧ (∀ fs data, c.save fs keys data =
        match fs.createDirAll (c.cache_dir ++ keys) with
        | .ok fs1 => Cache.ioResult
            (fs1.createFile (c.cache_dir ++ keys ++ [c.filename]) data)
        | .error k => .error (.IOErr k))
    ∧ (∀ fs, c.load fs keys =
        Cache.ioResult (fs.read (c.cache_dir ++ keys ++ [c.filename])))
    ∧ (∀ fs, c.remove fs keys =
        Cache.ioResult (fs.removeFile (c.cache_dir ++ keys ++ [c.filename])))
    ∧ (∀ fs, c.has fs keys =
        fs.existsPath (c.cache_dir ++ keys ++ [c.filename])) := by
  have hd : c.dirpath_by_keys keys = c.cache_dir ++ keys := by
    rw [Cache.Client.dirpath_eq, componentsOfKeys_of_plain keys hk]
  have hp : c.filepath_by_keys keys = c.cache_dir ++ keys ++ [c.filename] := by
    rw [Cache.Client.filepath_by_keys, pushPath, hd, hf]
  refine ⟨hd, hp, ?_, ?_, ?_, ?_⟩
  · intro fs data
    rw [Cache.Client.save, Cache.Client.ensure_dir, hd, hp]
    cases fs.createDirAll (c.cache_dir ++ keys) <;> rfl
  · intro fs
    rw [Cache.Client.load, hp]
  · intro fs
    rw [Cache.Client.remove, hp]
  · intro fs
    rw [Cache.Client.has, hp]

theorem cache_ops_address_joined_path_witness :
    Cache.Client.filepath_by_keys ⟨["root"], "data.json"⟩ ["a", "b"] =
      ["root"] ++ ["a", "b"] ++ ["data.json"] :=
  (cache_ops_address_joined_path ⟨["root"], "data.json"⟩ ["a", "b"]
    (by decide) (by decide)).2.1

/-- C8: key segment order is significant: the keys ["a", "b"] and
["b", "a"] address distinct paths, a save under either leaves the load
of the other unchanged, and the saved entry is read back under its own
key. -/
theorem key_order_distinguishes_entries (c : Cache.Client) :
    c.filepath_by_keys ["a", "b"] ≠ c.filepath_by_keys ["b", "a"]
    ∧ (∀ fs data fs1, c.save fs ["a", "b"] data = .ok fs1 →
        c.load fs1 ["a", "b"] = .ok data
        ∧ c.load fs1 ["b", "a"] = c.load fs ["b", "a"])
    ∧ (∀ fs data fs1, c.save fs ["b", "a"] data = .ok fs1 →
        c.load fs1 ["b", "a"] = .ok data
        ∧ c.load fs1 ["a", "b"] = c.load fs ["a", "b"]) := by
  have hab : c.filepath_by_keys ["a", "b"] =
      c.cache_dir ++ "a" :: "b" :: components c.filename := by
    rw [Cache.Client.filepath_eq,
      show componentsOfKeys ["a", "b"] = ["a", "b"] by decide,
      List.append_assoc]
    rfl
  have hba : c.filepath_by_keys ["b", "a"] =
      c.cache_dir ++ "b" :: "a" :: components c.filename := by
    rw [Cache.Client.filepath_eq,
      show componentsOfKeys ["b", "a"] = ["b", "a"] by decide,
      List.append_assoc]
    rfl
  have hnab : ¬ (c.filepath_by_keys ["a", "b"] <+: c.filepath_by_keys ["b", "a"]) := by
    rw [hab, hba]
    exact not_prefix_append_cons (by decide)
  have hnba : ¬ (c.filepath_by_keys ["b", "a"] <+: c.filepath_by_keys ["a", "b"]) := by
    rw [hab, hba]
    exact not_prefix_append_cons (by decide)
  refine ⟨?_, fun fs data fs1 hs =>
      ⟨load_save_same hs, load_save_other hs hnba⟩,
    fun fs data fs1 hs => ⟨load_save_same hs, load_save_other hs hnab⟩⟩
  intro he
  exact hnab (he ▸ List.prefix_refl _)

theorem key_order_distinguishes_entries_witness :
    Cache.Client.load ⟨["root"], "data.json"⟩
      ⟨[(["root", "a", "b", "data.json"], [7])], [["root", "a", "b"]]⟩
      ["a", "b"] = .ok [7]
    ∧ Cache.Client.load ⟨["root"], "data.json"⟩
      ⟨[(["root", "a", "b", "data.json"], [7])], [["root", "a", "b"]]⟩
      ["b", "a"] =
      Cache.Client.load ⟨["root"], "data.json"⟩ ⟨[], []⟩ ["b", "a"] :=
  (key_order_distinguishes_entries ⟨["root"], "data.json"⟩).2.1 ⟨[], []⟩ [7]
    ⟨[(["root", "a", "b", "data.json"], [7])], [["root", "a", "b"]]⟩
    (by decide)

/-- C10: the key-to-path mapping performs no validation or escaping: a
segment containing a separator addresses the same path as the
corresponding split key sequence, so a save under the one is read back
by a load under the other. -/
theorem separator_segments_alias_entries (c : Cache.Client) :
    c.filepath_by_keys ["a/b"] = c.filepath_by_keys ["a", "b"]
    ∧ ∀ fs data fs1, c.save fs ["a/b"] data = .ok fs1 →
        c.load fs1 ["a", "b"] = .ok data := by
  have hpath : c.filepath_by_keys ["a/b"] = c.filepath_by_keys ["a", "b"] := by
    rw [Cache.Client.filepath_eq, Cache.Client.filepath_eq,
      show componentsOfKeys ["a/b"] = ["a", "b"] by decide,
      show componentsOfKeys ["a", "b"] = ["a", "b"] by decide]
  refine ⟨hpath, fun fs data fs1 hs => ?_⟩
  rw [Cache.Client.load, FS.read, ← hpath, readFile_save_same hs]
  rfl

theorem separator_segments_alias_entries_witness :
    Cache.Client.load ⟨["root"], "data.json"⟩
      ⟨[(["root", "a", "b", "data.json"], [9])], [["root", "a", "b"]]⟩
      ["a", "b"] = .ok [9] :=
  (separator_segments_alias_entries ⟨["root"], "data.json"⟩).2 ⟨[], []⟩ [9]
    ⟨[(["root", "a", "b", "data.json"], [9])], [["root", "a", "b"]]⟩
    (by decide)

end RustCodecovCache

namespace RustCodecovCache

theorem fetch_and_save_fst (cache_client : Cache.Client) (fs : FS)
    (encode : BranchDetail → Bytes)
    (fetch : Except CodecovError BranchDetailAPIResponse)
    (author : Author) (branch_name : String) :
    (fetch_and_save cache_client fs encode fetch author branch_name).1 =
      match fetch with
      | .ok r => .ok r
      | .error e => .error (Error.fromCodecov e) := by
  cases fetch with
  | error e => rfl
  | ok r =>
    cases r with
    | NotFound => rfl
    | Success detail =>
      simp only [fetch_and_save]
      cases hs : cache_client.save fs [author.service, author.username,
          author.name, branch_name, detail.head_commit.commitid]
          (encode detail) <;> simp [hs]

theorem get_eq_fetch_and_save_of_load_error {cache_client : Cache.Client}
    {fs : FS} {encode : BranchDetail → Bytes}
    {decode : Bytes → Option BranchDetailAPIResponse}
    {fetch : Except CodecovError BranchDetailAPIResponse} {author : Author}
    {branch_name commit_id : String} {err : Cache.Error}
    (h : cache_client.load fs [author.service, author.username, author.name,
      branch_name, commit_id] = .error err) :
    get_branch_detail_with_commit_id cache_client fs encode decode fetch
        author branch_name commit_id =
      fetch_and_save cache_client fs encode fetch author branch_name := by
  simp only [get_branch_detail_with_commit_id, h]

theorem get_eq_fetch_and_save_of_decode_none {cache_client : Cache.Client}
    {fs : FS} {encode : BranchDetail → Bytes}
    {decode : Bytes → Option BranchDetailAPIResponse}
    {fetch : Except CodecovError BranchDetailAPIResponse} {author : Author}
    {branch_name commit_id : String} {data : Bytes}
    (h1 : cache_client.load fs [author.service, author.username, author.name,
      branch_name, commit_id] = .ok data)
    (h2 : decode data = none) :
    get_branch_detail_with_commit_id cache_client fs encode decode fetch
        author branch_name commit_id =
      fetch_and_save cache_client fs encode fetch author branch_name := by
  simp only [get_branch_detail_with_commit_id, h1, h2]

theorem get_eq_fetch_and_save_of_miss {cache_client : Cache.Client}
    {fs : FS} {encode : BranchDetail → Bytes}
    {decode : Bytes → Option BranchDetailAPIResponse}
    {fetch : Except CodecovError BranchDetailAPIResponse} {author : Author}
    {branch_name commit_id : String}
    (hmiss : (∃ err, cache_client.load fs [author.service, author.username,
        author.name, branch_name, commit_id] = .error err) ∨
      (∃ data, cache_client.load fs [author.service, author.username,
        author.name, branch_name, commit_id] = .ok data ∧ decode data = none)) :
    get_branch_detail_with_commit_id cache_client fs encode decode fetch
        author branch_name commit_id =
      fetch_and_save cache_client fs encode fetch author branch_name := by
  rcases hmiss with ⟨err, h⟩ | ⟨data, h1, h2⟩
  · exact get_eq_fetch_and_save_of_load_error h
  · exact get_eq_fetch_and_save_of_decode_none h1 h2

end RustCodecovCache

namespace RustCodecovCache

/-- C1: on a cache miss for the lookup key ending in the caller-supplied
commit id, a Success fetch whose head commit id resolves differently is
stored (serialized) under the canonical key ending in the resolved
commit id, the call returns the fetched response, and when the two
commit ids differ the original lookup key remains absent. -/
theorem get_branch_detail_stores_under_resolved_commit
    (cache_client : Cache.Client) (fs : FS) (encode : BranchDetail → Bytes)
    (decode : Bytes → Option BranchDetailAPIResponse) (author : Author)
    (branch_name commit_id : String) (detail : BranchDetail) (fs1 : FS)
    (hmiss : fs.readFile (cache_client.filepath_by_keys [author.service,
      author.username, author.name, branch_name, commit_id]) = none)
    (hsave : cache_client.save fs [author.service, author.username,
      author.name, branch_name, detail.head_commit.commitid]
      (encode detail) = .ok fs1)
    (hc1 : components commit_id = [commit_id])
    (hc2 : components detail.head_commit.commitid
      = [detail.head_commit.commitid]) :
    get_branch_detail_with_commit_id cache_client fs encode decode
        (.ok (.Success detail)) author branch_name commit_id
      = (.ok (.Success detail), fs1)
    ∧ fs1.readFile (cache_client.filepath_by_keys [author.service,
        author.username, author.name, branch_name,
        detail.head_commit.commitid]) = some (encode detail)
    ∧ (commit_id ≠ detail.head_commit.commitid →
        fs1.readFile (cache_client.filepath_by_keys [author.service,
          author.username, author.name, branch_name, commit_id]) = none) := by
  obtain ⟨err, hld⟩ := load_error_of_readFile_none hmiss
  have hget := @get_eq_fetch_and_save_of_load_error cache_client fs encode
    decode (.ok (.Success detail)) author branch_name commit_id _ hld
  refine ⟨?_, readFile_save_same hsave, fun hne => ?_⟩
  · rw [hget]
    simp only [fetch_and_save]
    rw [hsave]
  · have hpne : cache_client.filepath_by_keys [author.service,
        author.username, author.name, branch_name, commit_id] ≠
        cache_client.filepath_by_keys [author.service, author.username,
          author.name, branch_name, detail.head_commit.commitid] := by
      rw [show ([author.service, author.username, author.name, branch_name,
          commit_id] : List String) = [author.service, author.username,
          author.name, branch_name] ++ [commit_id] from rfl,
        show ([author.service, author.username, author.name, branch_name,
          detail.head_commit.commitid] : List String) = [author.service,
          author.username, author.name, branch_name]
          ++ [detail.head_commit.commitid] from rfl]
      exact filepath_ne_of_last_ne cache_client _ hc1 hc2 hne
    rw [readFile_save_other hsave hpne]
    exact hmiss

theorem get_branch_detail_stores_under_resolved_commit_witness :
    get_branch_detail_with_commit_id ⟨["root"], "data.json"⟩ ⟨[], []⟩
        (fun _ => [3]) (fun _ => none)
        (.ok (.Success ⟨"main", ⟨"c2"⟩, "x"⟩)) ⟨"svc", "u", "r"⟩ "main" "c1"
      = (.ok (.Success ⟨"main", ⟨"c2"⟩, "x"⟩),
        ⟨[(["root", "svc", "u", "r", "main", "c2", "data.json"], [3])],
          [["root", "svc", "u", "r", "main", "c2"]]⟩)
    ∧ FS.readFile
        ⟨[(["root", "svc", "u", "r", "main", "c2", "data.json"], [3])],
          [["root", "svc", "u", "r", "main", "c2"]]⟩
        (Cache.Client.filepath_by_keys ⟨["root"], "data.json"⟩
          ["svc", "u", "r", "main", "c2"]) = some [3]
    ∧ FS.readFile
        ⟨[(["root", "svc", "u", "r", "main", "c2", "data.json"], [3])],
          [["root", "svc", "u", "r", "main", "c2"]]⟩
        (Cache.Client.filepath_by_keys ⟨["root"], "data.json"⟩
          ["svc", "u", "r", "main", "c1"]) = none :=
  let h := get_branch_detail_stores_under_resolved_commit
    ⟨["root"], "data.json"⟩ ⟨[], []⟩ (fun _ => [3]) (fun _ => none)
    ⟨"svc", "u", "r"⟩ "main" "c1" ⟨"main", ⟨"c2"⟩, "x"⟩
    ⟨[(["root", "svc", "u", "r", "main", "c2", "data.json"], [3])],
      [["root", "svc", "u", "r", "main", "c2"]]⟩
    (by decide) (by decide) (by decide) (by decide)
  ⟨h.1, h.2.1, h.2.2 (by decide)⟩

/-- C3: when the cached bytes at the lookup key fail to decode, the call
behaves exactly as on a cache miss: it equals the fall-through
fetch_and_save and its result is the live remote outcome, never a
deserialization error. -/
theorem corrupt_cache_entry_falls_through_to_fetch
    (cache_client : Cache.Client) (fs : FS) (encode : BranchDetail → Bytes)
    (decode : Bytes → Option BranchDetailAPIResponse)
    (fetch : Except CodecovError BranchDetailAPIResponse) (author : Author)
    (branch_name commit_id : String) (data : Bytes)
    (hload : cache_client.load fs [author.service, author.username,
      author.name, branch_name, commit_id] = .ok data)
    (hdec : decode data = none) :
    get_branch_detail_with_commit_id cache_client fs encode decode fetch
        author branch_name commit_id =
      fetch_and_save cache_client fs encode fetch author branch_name
    ∧ (get_branch_detail_with_commit_id cache_client fs encode decode fetch
        author branch_name commit_id).1 =
      match fetch with
      | .ok r => .ok r
      | .error e => .error (Error.fromCodecov e) := by
  have h1 := @get_eq_fetch_and_save_of_decode_none cache_client fs encode
    decode fetch author branch_name commit_id data hload hdec
  exact ⟨h1, by rw [h1, fetch_and_save_fst]⟩

theorem corrupt_cache_entry_falls_through_to_fetch_witness :
    get_branch_detail_with_commit_id ⟨["root"], "data.json"⟩
        ⟨[(["root", "svc", "u", "r", "main", "c1", "data.json"], [9])], []⟩
        (fun _ => [3]) (fun _ => none) (.ok .NotFound) ⟨"svc", "u", "r"⟩
        "main" "c1" =
      fetch_and_save ⟨["root"], "data.json"⟩
        ⟨[(["root", "svc", "u", "r", "main", "c1", "data.json"], [9])], []⟩
        (fun _ => [3]) (.ok .NotFound) ⟨"svc", "u", "r"⟩ "main"
    ∧ (get_branch_detail_with_commit_id ⟨["root"], "data.json"⟩
        ⟨[(["root", "svc", "u", "r", "main", "c1", "data.json"], [9])], []⟩
        (fun _ => [3]) (fun _ => none) (.ok .NotFound) ⟨"svc", "u", "r"⟩
        "main" "c1").1 = .ok .NotFound :=
  corrupt_cache_entry_falls_through_to_fetch ⟨["root"], "data.json"⟩
    ⟨[(["root", "svc", "u", "r", "main", "c1", "data.json"], [9])], []⟩
    (fun _ => [3]) (fun _ => none) (.ok .NotFound) ⟨"svc", "u", "r"⟩
    "main" "c1" [9] (by decide) rfl

/-- C4: when the cache lookup misses or does not decode and the remote
call fails, the call returns that failure (converted through the From
impl of src/errors.rs) and the filesystem is returned unchanged. -/
theorem remote_failure_propagates_and_cache_unchanged
    (cache_client : Cache.Client) (fs : FS) (encode : BranchDetail → Bytes)
    (decode : Bytes → Option BranchDetailAPIResponse) (author : Author)
    (branch_name commit_id : String) (e : CodecovError)
    (hmiss : (∃ err, cache_client.load fs [author.service, author.username,
        author.name, branch_name, commit_id] = .error err) ∨
      (∃ data, cache_client.load fs [author.service, author.username,
        author.name, branch_name, commit_id] = .ok data
        ∧ decode data = none)) :
    get_branch_detail_with_commit_id cache_client fs encode decode
        (.error e) author branch_name commit_id
      = (.error (Error.fromCodecov e), fs) := by
  rw [get_eq_fetch_and_save_of_miss hmiss]
  rfl

theorem remote_failure_propagates_and_cache_unchanged_witness :
    get_branch_detail_with_commit_id ⟨["root"], "data.json"⟩ ⟨[], []⟩
        (fun _ => [3]) (fun _ => none) (.error (.ApiError "boom"))
        ⟨"svc", "u", "r"⟩ "main" "c1"
      = (.error (.CodecovClientError (.ApiError "boom")), ⟨[], []⟩) :=
  remote_failure_propagates_and_cache_unchanged ⟨["root"], "data.json"⟩
    ⟨[], []⟩ (fun _ => [3]) (fun _ => none) ⟨"svc", "u", "r"⟩ "main" "c1"
    (.ApiError "boom") (.inl ⟨.IOErr .notFound, by decide⟩)

/-- C5: when the cache misses, the remote fetch returns Success and the
write-back save fails, the call still returns the fetched response with
the filesystem unchanged; the storage failure never becomes the result. -/
theorem save_failure_does_not_fail_query
    (cache_client : Cache.Client) (fs : FS) (encode : BranchDetail → Bytes)
    (decode : Bytes → Option BranchDetailAPIResponse) (author : Author)
    (branch_name commit_id : String) (detail : BranchDetail)
    (serr : Cache.Error)
    (hmiss : (∃ err, cache_client.load fs [author.service, author.username,
        author.name, branch_name, commit_id] = .error err) ∨
      (∃ data, cache_client.load fs [author.service, author.username,
        author.name, branch_name, commit_id] = .ok data
        ∧ decode data = none))
    (hsave : cache_client.save fs [author.service, author.username,
      author.name, branch_name, detail.head_commit.commitid]
      (encode detail) = .error serr) :
    get_branch_detail_with_commit_id cache_client fs encode decode
        (.ok (.Success detail)) author branch_name commit_id
      = (.ok (.Success detail), fs) := by
  rw [get_eq_fetch_and_save_of_miss hmiss]
  simp only [fetch_and_save]
  rw [hsave]

theorem save_failure_does_not_fail_query_witness :
    get_branch_detail_with_commit_id ⟨["root"], "data.json"⟩
        ⟨[(["root", "svc"], [0])], []⟩ (fun _ => [3]) (fun _ => none)
        (.ok (.Success ⟨"main", ⟨"c2"⟩, "x"⟩)) ⟨"svc", "u", "r"⟩ "main" "c1"
      = (.ok (.Success ⟨"main", ⟨"c2"⟩, "x"⟩), ⟨[(["root", "svc"], [0])], []⟩) :=
  save_failure_does_not_fail_query ⟨["root"], "data.json"⟩
    ⟨[(["root", "svc"], [0])], []⟩ (fun _ => [3]) (fun _ => none)
    ⟨"svc", "u", "r"⟩ "main" "c1" ⟨"main", ⟨"c2"⟩, "x"⟩ (.IOErr .other)
    (.inl ⟨.IOErr .notFound, by decide⟩) (by decide)

/-- C9: when the cache misses and the remote call succeeds with a
non-Success domain variant, no cache write happens: the call returns
that variant wrapped in Ok with the filesystem unchanged. -/
theorem non_success_response_not_cached
    (cache_client : Cache.Client) (fs : FS) (encode : BranchDetail → Bytes)
    (decode : Bytes → Option BranchDetailAPIResponse) (author : Author)
    (branch_name commit_id : String) (r : BranchDetailAPIResponse)
    (hmiss : (∃ err, cache_client.load fs [author.service, author.username,
        author.name, branch_name, commit_id] = .error err) ∨
      (∃ data, cache_client.load fs [author.service, author.username,
        author.name, branch_name, commit_id] = .ok data
        ∧ decode data = none))
    (hr : ∀ detail, r ≠ .Success detail) :
    get_branch_detail_with_commit_id cache_client fs encode decode
        (.ok r) author branch_name commit_id = (.ok r, fs) := by
  rw [get_eq_fetch_and_save_of_miss hmiss]
  cases r with
  | Success detail => exact absurd rfl (hr detail)
  | NotFound => rfl

theorem non_success_response_not_cached_witness :
    get_branch_detail_with_commit_id ⟨["root"], "data.json"⟩ ⟨[], []⟩
        (fun _ => [3]) (fun _ => none) (.ok .NotFound) ⟨"svc", "u", "r"⟩
        "main" "c1" = (.ok .NotFound, ⟨[], []⟩) :=
  non_success_response_not_cached ⟨["root"], "data.json"⟩ ⟨[], []⟩
    (fun _ => [3]) (fun _ => none) ⟨"svc", "u", "r"⟩ "main" "c1" .NotFound
    (.inl ⟨.IOErr .notFound, by decide⟩)
    (fun detail h => BranchDetailAPIResponse.noConfusion h)

end RustCodecovCache
